import Mathlib

/-!
Verification of the TDPoseEstimation repository (stacked-hourglass pose
network, configuration system and training driver) against its
natural-language specification.  The Python sources are shallowly embedded:
tensor-valued layers become Lean functions over abstract tensor types,
shape bookkeeping becomes functions on `Nat`, fallible tensor operations
return `Option`, the training loop becomes an event trace, and the mutable
global configuration becomes explicit state passing with `Except` carrying
the mutated state at the point a `ValueError` is raised.
-/

namespace TDPose

/-! ### PoseNet.forward (src/lib/models/pose_stacked_hg.py, lines 435-454)

The stack loop of `PoseNet.forward` is embedded generically over a tensor
type `T`: `head_layer` and the hourglass modules `hgs i : T → T × T`
(returning `(residual, logits)`) are abstract functions, `add` embeds
tensor addition.  The `log_flops` branch of the Python code only
accumulates FLOP counters and never touches `x` or `logits`, so the
embedding follows the `log_flops=False` path.  `torch.stack(logits)` packs
the per-stack logit tensors along a new leading dimension; the embedding
returns the corresponding `List T` in stack order. -/

namespace PoseNetM

/-- The body of `for stack_i in range(self._n_stacks)` in `PoseNet.forward`:
`identity = x.clone(); residual, logit_i = self.hgs[stack_i](x);
logits.append(logit_i); x = identity + residual`.  The first argument is
the current stack index, the second the number of remaining stacks. -/
def forwardLoop {T : Type} (hgs : Nat → T → T × T) (add : T → T → T) :
    Nat → Nat → T → List T
  | _, 0, _ => []
  | i, k + 1, x =>
      let identity := x
      let hgOut := hgs i x
      hgOut.2 :: forwardLoop hgs add (i + 1) k (add identity hgOut.1)

/-- `PoseNet.forward`: `x = self.head_layer(x)` followed by the stack loop;
the returned list is `torch.stack(logits)` in stack order. -/
def forward {T : Type} (n_stacks : Nat) (head_layer : T → T)
    (hgs : Nat → T → T × T) (add : T → T → T) (x : T) : List T :=
  forwardLoop hgs add 0 n_stacks (head_layer x)

/-- The input fed to hourglass `i`: the head output for `i = 0`, and for
`i + 1` the input of hourglass `i` plus the residual hourglass `i`
returned on that input. -/
def hgInput {T : Type} (head_layer : T → T) (hgs : Nat → T → T × T)
    (add : T → T → T) (x : T) : Nat → T
  | 0 => head_layer x
  | i + 1 =>
      let s := hgInput head_layer hgs add x i
      add s (hgs i s).1

/-- Auxiliary state: the tensor held by `x` after `j` iterations of the
stack loop started at index `i` with value `x`. -/
def loopState {T : Type} (hgs : Nat → T → T × T) (add : T → T → T) :
    Nat → T → Nat → T
  | _, x, 0 => x
  | i, x, j + 1 => loopState hgs add (i + 1) (add x (hgs i x).1) j

end PoseNetM

/-! ### Spatial-shape semantics of HourGlass
(src/lib/models/pose_stacked_hg.py, lines 213-222 and 261-379)

Each layer of the hourglass is mapped to its effect on the spatial size
`(height, width)` of the tensor flowing through it, per the standard
PyTorch output-size formulas: `Conv2d(k, stride=s, padding=p)` maps `n` to
`(n + 2p - k) / s + 1`, `MaxPool2d((2,2))` (stride defaults to the kernel)
maps `n` to `(n - 2) / 2 + 1`, and `Upsample(scale_factor=2)` maps `n` to
`2 * n`.  `BatchNorm2d` and `ReLU` leave the size unchanged.  Operations
that PyTorch rejects on mismatched shapes — the addition
`residual + down_feature` and the channel concatenation
`torch.cat([residual, down_feature], dim=1)` in `MergeDecoder.forward`,
and the addition `residual + identity` inside the residual blocks — are
embedded as `Option`-valued checks requiring equal spatial sizes.
Channel bookkeeping is handled separately (see `ChannelM`). -/

namespace ShapeM

/-- Spatial size of one dimension after `Conv2d` with kernel `k`,
stride `s`, padding `p`. -/
def conv2dOut (k s p n : Nat) : Nat := (n + 2 * p - k) / s + 1

/-- Both spatial dimensions after a `kernel_size=3, stride=1, padding=1`
convolution. -/
def conv3Shape (d : Nat × Nat) : Nat × Nat :=
  (conv2dOut 3 1 1 d.1, conv2dOut 3 1 1 d.2)

/-- Both spatial dimensions after a `kernel_size=1, stride=1` convolution. -/
def conv1Shape (d : Nat × Nat) : Nat × Nat :=
  (conv2dOut 1 1 0 d.1, conv2dOut 1 1 0 d.2)

/-- Both spatial dimensions after `MaxPool2d((2,2))`. -/
def poolShape (d : Nat × Nat) : Nat × Nat :=
  (conv2dOut 2 2 0 d.1, conv2dOut 2 2 0 d.2)

/-- Both spatial dimensions after `Upsample(scale_factor=2)`. -/
def upShape (d : Nat × Nat) : Nat × Nat := (2 * d.1, 2 * d.2)

/-- Elementwise tensor addition: defined only when both operands have the
same spatial size. -/
def addShape (a b : Nat × Nat) : Option (Nat × Nat) :=
  if a = b then some a else none

/-- Spatial effect of `VanillaResblock.forward` at equal in/out channels
(as instantiated everywhere inside `HourGlass`): two `3x3, stride 1,
padding 1` convolutions (`bn1`, `bn2`, `relu` size-preserving), then
`residual + identity` where the identity branch keeps the input size. -/
def vanillaResShape (d : Nat × Nat) : Option (Nat × Nat) :=
  addShape (conv3Shape (conv3Shape d)) d

/-- Spatial effect of `MultiScaleResblock.forward`: three chained `3x3,
stride 1, padding 1` convolutions whose outputs are concatenated along the
channel dimension (legal only when all three have equal spatial size),
then `residual + identity`. -/
def multiScaleResShape (d : Nat × Nat) : Option (Nat × Nat) := do
  let o1 := conv3Shape d
  let o2 := conv3Shape o1
  let o3 := conv3Shape o2
  let residual ← addShape o1 o2 >>= fun r => addShape r o3
  addShape residual d

/-- Spatial effect of one encoder stage `encode_i = Sequential(resblock,
MaxPool2d((2,2)), Conv2d(k=3, s=1, p=1))`. -/
def encodeShape (resShape : Nat × Nat → Option (Nat × Nat))
    (d : Nat × Nat) : Option (Nat × Nat) := do
  let r ← resShape d
  pure (conv3Shape (poolShape r))

/-- Spatial effect of `MergeDecoder.forward`: `residual = self.up(x)`,
then merge with `down_feature` — addition and channel concatenation both
require equal spatial sizes — then `relu(bn(decode_conv(out)))` with a
`3x3, stride 1, padding 1` convolution. -/
def mergeDecoderShape (x down : Nat × Nat) : Option (Nat × Nat) :=
  let residual := upShape x
  if residual = down then some (conv3Shape residual) else none

/-- Spatial effect of `feature_map = Sequential(resblock, Conv2d(k=1),
BatchNorm2d, ReLU)`. -/
def featureMapShape (resShape : Nat × Nat → Option (Nat × Nat))
    (d : Nat × Nat) : Option (Nat × Nat) := do
  let f ← resShape d
  pure (conv1Shape f)

/-- Spatial effect of `HourGlass.forward`: optional `1x1` conversion
convolution, four encoder stages, three merge-decoders (`decode_1` merges
the upsampled `down4` with `down3`, `decode_2` with `down2`, `decode_3`
with `down1`), one final `2x` upsample followed by the `final_up`
convolution, optional `1x1` conversion back, then
`features = feature_map(out)`, `logits = logit_map(features)` (a `1x1`
convolution), `remap_i = remap(logits)` (a `1x1` convolution) and
`residual = features + remap_i`.  Returns the spatial sizes of
`(residual, logits)`. -/
def hourglassShape (resShape : Nat × Nat → Option (Nat × Nat))
    (useConversionConv : Bool) (d : Nat × Nat) :
    Option ((Nat × Nat) × (Nat × Nat)) := do
  let x := if useConversionConv then conv1Shape d else d
  let down1 ← encodeShape resShape x
  let down2 ← encodeShape resShape down1
  let down3 ← encodeShape resShape down2
  let down4 ← encodeShape resShape down3
  let up1 ← mergeDecoderShape down4 down3
  let up2 ← mergeDecoderShape up1 down2
  let up3 ← mergeDecoderShape up2 down1
  let up4 := upShape up3
  let out := conv3Shape up4
  let out := if useConversionConv then conv1Shape out else out
  let features ← featureMapShape resShape out
  let logits := conv1Shape features
  let remap_i := conv1Shape logits
  let residual ← addShape features remap_i
  pure (residual, logits)

end ShapeM

/-! ### Channel semantics of the residual blocks
(src/lib/models/pose_stacked_hg.py, lines 51-95 and 98-152)

Each layer is mapped to its effect on the channel count of a 4-D tensor.
`Conv2d(cin, cout, ...)` requires exactly `cin` input channels (PyTorch
raises a `RuntimeError` otherwise) and produces `cout`; `BatchNorm2d(f)`
requires `f` channels; elementwise addition requires equal channel counts;
`torch.cat(..., dim=1)` sums them.  `ReLU` and the gating of
`IdentityMapping` (multiplication by `alpha`, whose length always equals
the channel count of the gated tensor) are channel-preserving. -/

namespace ChannelM

/-- Channel count after `Conv2d(cin, cout, ...)` on a `c`-channel input:
defined only when `c = cin`. -/
def convCh (cin cout c : Nat) : Option Nat :=
  if c = cin then some cout else none

/-- Channel count after `BatchNorm2d(f)` on a `c`-channel input. -/
def bnCh (f c : Nat) : Option Nat := if c = f then some c else none

/-- Channel count of an elementwise sum of tensors with `a` and `b`
channels. -/
def addCh (a b : Nat) : Option Nat := if a = b then some a else none

/-- Channel count of `IdentityMapping.forward` on a `c`-channel input:
`skip_conv` (a `Conv2d(in_channels, out_channels, kernel_size=1)`) is
applied exactly when `in_channels != out_channels`; the subsequent gating
multiplies by `alpha` (of length `out_channels`, matching the gated
tensor) and keeps the channel count. -/
def identityMappingCh (inC outC c : Nat) : Option Nat :=
  if inC ≠ outC then convCh inC outC c else some c

/-- Channel count of `VanillaResblock.forward` on a `c`-channel input:
`out = relu(bn1(conv1(x)))` with `conv1 : in_channels → out_channels`,
`residual = bn2(conv2(out))` with `conv2 : out_channels → out_channels`,
`identity = identity_mapping(x)`, `out = residual + identity`, and — when
`in_channels != out_channels` — the final
`_remap_conv = Conv2d(in_channels, out_channels, kernel_size=1)` applied
to `out`. -/
def vanillaResblockCh (inC outC c : Nat) : Option Nat := do
  let o1 ← convCh inC outC c
  let o1 ← bnCh outC o1
  let o2 ← convCh outC outC o1
  let residual ← bnCh outC o2
  let identity ← identityMappingCh inC outC c
  let out ← addCh residual identity
  if inC ≠ outC then convCh inC outC out else some out

/-- Channel count of `MultiScaleResblock.forward` on a `c`-channel input:
`conv1 : in_channels → in_channels // 2`, `conv2 : in_channels // 2 →
in_channels // 4`, `conv3 : in_channels // 4 → in_channels // 4` (each
followed by its matching `BatchNorm2d` and `relu`),
`residual = torch.cat([out1, out2, out3], dim=1)`,
`identity = identity_mapping(x)` with equal in/out channels,
`out = residual + identity`, then the final
`_remap_conv = Conv2d(in_channels, out_channels, kernel_size=1)` when
`in_channels != out_channels`. -/
def multiScaleResblockCh (inC outC c : Nat) : Option Nat := do
  let o1 ← convCh inC (inC / 2) c
  let o1 ← bnCh (inC / 2) o1
  let o2 ← convCh (inC / 2) (inC / 4) o1
  let o2 ← bnCh (inC / 4) o2
  let o3 ← convCh (inC / 4) (inC / 4) o2
  let o3 ← bnCh (inC / 4) o3
  let residual := o1 + o2 + o3
  let identity ← identityMappingCh inC inC c
  let out ← addCh residual identity
  if inC ≠ outC then convCh inC outC out else some out

end ChannelM

/-! ### Value-level semantics of IdentityMapping and VanillaResblock
(src/lib/models/pose_stacked_hg.py, lines 6-95)

A 4-D tensor is embedded as a function from (channel index, flattened
batch-and-spatial index) to a rational value.  The convolutions and batch
norms carry randomly initialised weights in the Python code, so they are
abstracted as arbitrary functions `Tensor → Tensor`; what matters for the
gating claims is the data flow around them, which is embedded exactly as
the source composes it.  `_setup_alpha` builds `alpha` with `torch.zeros`
in all three modes, so a freshly constructed module always has `alpha = 0`
(`requires_grad` only affects training, not `forward`). -/

namespace ValueM

/-- A 4-D tensor: channel index × (batch and spatial) index → value. -/
def Tensor : Type := Nat → Nat → ℚ

/-- The all-zero tensor. -/
def zeroT : Tensor := fun _ _ => 0

/-- Pointwise tensor addition (`residual + identity`). -/
def addT (a b : Tensor) : Tensor := fun c p => a c p + b c p

/-- The three gating modes of `IdentityMapping`. -/
inductive GatingMode where
  | standard
  | single
  | per_channel
deriving DecidableEq

/-- `IdentityMapping` state after `__init__`: the gating mode, the
`_use_skip_conv` flag, the `skip_conv` layer (abstract weights) and the
`alpha` parameter (indexed per channel; in `single` mode only index 0 is
read). -/
structure IdentityMapping where
  mode : GatingMode
  useSkipConv : Bool
  skipConv : Tensor → Tensor
  alpha : Nat → ℚ

/-- `IdentityMapping.__init__`: `_use_skip_conv = in_channels !=
out_channels` and, per `_setup_alpha`, `alpha = torch.zeros(...)` in every
mode. -/
def IdentityMapping.init (inC outC : Nat) (mode : GatingMode)
    (skipConv : Tensor → Tensor) : IdentityMapping :=
  { mode := mode
    useSkipConv := decide (inC ≠ outC)
    skipConv := skipConv
    alpha := fun _ => 0 }

/-- `IdentityMapping._apply_gating`: `per_channel` multiplies by
`alpha[None, :, None, None]`, `single` by the scalar `alpha`, `standard`
passes the tensor through. -/
def IdentityMapping.applyGating (m : IdentityMapping) (x : Tensor) : Tensor :=
  match m.mode with
  | .per_channel => fun c p => x c p * m.alpha c
  | .single => fun c p => x c p * m.alpha 0
  | .standard => x

/-- `IdentityMapping.forward`: the skip convolution when
`_use_skip_conv`, then the gating. -/
def IdentityMapping.forward (m : IdentityMapping) (x : Tensor) : Tensor :=
  let identity := if m.useSkipConv then m.skipConv x else x
  m.applyGating identity

/-- `VanillaResblock` state after `__init__`: the two convolutions with
their batch norms and `relu` (abstract weights), the identity mapping, the
`_remap_output_dim` flag and `_remap_conv`. -/
structure VanillaResblock where
  conv1 : Tensor → Tensor
  bn1 : Tensor → Tensor
  conv2 : Tensor → Tensor
  bn2 : Tensor → Tensor
  relu : Tensor → Tensor
  identity_mapping : IdentityMapping
  remapOutputDim : Bool
  remapConv : Tensor → Tensor

/-- `VanillaResblock.__init__`: the identity mapping is built with the
block's in/out channels and the gating mode from `kwargs`;
`_remap_output_dim = in_channels != out_channels`. -/
def VanillaResblock.init (inC outC : Nat) (mode : GatingMode)
    (conv1 bn1 conv2 bn2 relu remapConv skipConv : Tensor → Tensor) :
    VanillaResblock :=
  { conv1 := conv1, bn1 := bn1, conv2 := conv2, bn2 := bn2, relu := relu
    identity_mapping := IdentityMapping.init inC outC mode skipConv
    remapOutputDim := decide (inC ≠ outC)
    remapConv := remapConv }

/-- `VanillaResblock.forward`: `out = relu(bn1(conv1(x)))`,
`residual = bn2(conv2(out))`, `identity = identity_mapping(x)`,
`out = residual + identity`, then `_remap_conv` when
`_remap_output_dim`. -/
def VanillaResblock.forward (m : VanillaResblock) (x : Tensor) : Tensor :=
  let out := m.relu (m.bn1 (m.conv1 x))
  let residual := m.bn2 (m.conv2 out)
  let identity := m.identity_mapping.forward x
  let out := addT residual identity
  if m.remapOutputDim then m.remapConv out else out

end ValueM

/-! ### Object identity in PoseNet._setup_hgs
(src/lib/models/pose_stacked_hg.py, lines 411-433)

Python object identity is embedded with a fresh-id counter: every
evaluation of the constructor expression `HourGlass(...)` yields an object
with a new `objId`.  `kwargs.get("share_weights", False)` is embedded as
an `Option Bool` (`none` = key absent) defaulted with `getD false`; in
`get_pose_net` the same default is computed from
`"SHARE_HG_WEIGHTS" in cfg.MODEL.EXTRA` before being passed down as the
`share_weights` kwarg. -/

namespace HgsM

/-- A `HourGlass` object: its Python identity and the `stack_i`
constructor argument. -/
structure HourGlassInst where
  objId : Nat
  stack_i : Nat
deriving DecidableEq

/-- One evaluation of `HourGlass(...)`: a fresh object plus the advanced
counter. -/
def newHourGlass (fresh stack_i : Nat) : HourGlassInst × Nat :=
  (⟨fresh, stack_i⟩, fresh + 1)

/-- The list comprehension
`[HourGlass(stack_i=i, ...) for i in range(n_stacks)]`: one constructor
call per element. -/
def allocDistinct : Nat → Nat → Nat → List HourGlassInst
  | _, _, 0 => []
  | fresh, i, n + 1 =>
      let alloc := newHourGlass fresh i
      alloc.1 :: allocDistinct alloc.2 (i + 1) n

/-- `PoseNet._setup_hgs`: with `share_weights` truthy, one `HourGlass`
is constructed (with `stack_i=0`) and the `ModuleList` holds that same
object `n_stacks` times; otherwise the comprehension constructs `n_stacks`
separate objects with `stack_i = i`. -/
def setupHgs (share_weights : Option Bool) (n_stacks fresh : Nat) :
    List HourGlassInst :=
  if share_weights.getD false then
    let alloc := newHourGlass fresh 0
    List.replicate n_stacks alloc.1
  else
    allocDistinct fresh 0 n_stacks

end HgsM

/-! ### The training driver
(src/pose_estimation/train.py, lines 170-224, and
src/lib/utils/.ipynb_checkpoints/utils-checkpoint.py, `save_checkpoint`)

The epoch loop of `main` is embedded as an event trace.  The quantities
the loop consumes and stores are abstracted as functions of the epoch
index: `perfs i` is the value `validate(...)` returns in epoch `i`,
`sd i` and `opt i` are `model.module.state_dict()` and
`optimizer.state_dict()` at the save point of epoch `i`, and `name` is
`get_model_name(config)`.  File names are relative to `output_dir` (the
`os.path.join` prefix is elided).  When the epoch range is empty the
Python code crashes after the loop with a `NameError` (`epoch_i` and
`perf_indicator` are unbound in the final `save_dict`), so the full-driver
trace is `none` in that case. -/

namespace TrainM

/-- The `save_dict` literal of `train.py`: next epoch index, model name
(`get_model_name(config)`), model state dict, validation performance and
optimizer state. -/
structure SaveDict (S O : Type) where
  epoch_i : Nat
  model : String
  state_dict : S
  perf : ℚ
  optimizer : O
deriving DecidableEq

/-- Observable steps of one run of `main`'s training phase. -/
inductive TrainEvent (S O : Type) where
  | trainPass (epoch : Nat)
  | schedStep
  | validate (epoch : Nat)
  | save (filename : String) (d : SaveDict S O)
deriving DecidableEq

/-- `save_checkpoint(save_dict, is_best, output_dir, filename)`: writes
`save_dict` to `filename` (default `'checkpoint.pth.tar'`), then — when
`is_best` — also to `'model_best.pth.tar'`. -/
def save_checkpoint {S O : Type} (save_dict : SaveDict S O) (is_best : Bool)
    (filename : String := "checkpoint.pth.tar") : List (TrainEvent S O) :=
  [.save filename save_dict] ++
    (if is_best then [.save "model_best.pth.tar" save_dict] else [])

/-- The per-epoch inputs of the training loop, abstracted as functions of
the epoch index. -/
structure Driver (S O : Type) where
  perfs : Nat → ℚ
  sd : Nat → S
  opt : Nat → O
  name : String

/-- The `save_dict` built in epoch `epoch`:
`epoch_i = epoch + 1`, the model name, the state dict, the epoch's
validation performance and the optimizer state. -/
def Driver.saveDict {S O : Type} (d : Driver S O) (epoch : Nat) :
    SaveDict S O :=
  { epoch_i := epoch + 1
    model := d.name
    state_dict := d.sd epoch
    perf := d.perfs epoch
    optimizer := d.opt epoch }

/-- The loop `for epoch_i in range(begin, end)` of `main`, carrying
`best_perf` (initially `0.0`): in each epoch, in order, `train(...)`,
`lr_scheduler.step()`, `perf_indicator = validate(...)`, the
`best_perf` / `best_model` update (`best_model = perf_indicator >
best_perf`), and `save_checkpoint(save_dict, best_model, output_dir)`.
Arguments: current epoch, remaining epoch count, current `best_perf`. -/
def trainLoop {S O : Type} (d : Driver S O) :
    Nat → Nat → ℚ → List (TrainEvent S O)
  | _, 0, _ => []
  | i, k + 1, best_perf =>
      let perf := d.perfs i
      let best_model := decide (best_perf < perf)
      let best' := if best_perf < perf then perf else best_perf
      ([.trainPass i, .schedStep, .validate i] ++
        save_checkpoint (d.saveDict i) best_model) ++
        trainLoop d (i + 1) k best'

/-- The full training phase of `main`: the epoch loop from `b` to `e`
(exclusive) starting with `best_perf = 0.0`, then the final
`save_checkpoint(save_dict, False, output_dir,
filename='final_state.pth.tar')` using the last epoch's values.  With an
empty epoch range the final `save_dict` references the unbound loop
variables and `main` raises `NameError`, hence `none`. -/
def mainTrace {S O : Type} (d : Driver S O) (b e : Nat) :
    Option (List (TrainEvent S O)) :=
  if b < e then
    some (trainLoop d b (e - b) 0 ++
      save_checkpoint (d.saveDict (e - 1)) false "final_state.pth.tar")
  else none

/-- Specification-side definition for the refinement proof: the maximum of `0.0` and
the validation performances of the epochs in `[b, i)` — the threshold the
claim says epoch `i`'s performance must strictly exceed for a
`model_best` save. -/
def bestBefore (perfs : Nat → ℚ) (b i : Nat) : ℚ :=
  ((List.range' b (i - b)).map perfs).foldl max 0

/-- Specification-side definition for the refinement proof: the expected event block
of epoch `j` — one training pass, one scheduler step, one validation and
one checkpoint save, the latter marked best exactly when the epoch's
performance strictly exceeds `bestBefore`. -/
def specBlock {S O : Type} (d : Driver S O) (b j : Nat) :
    List (TrainEvent S O) :=
  [.trainPass j, .schedStep, .validate j] ++
    save_checkpoint (d.saveDict j) (decide (bestBefore d.perfs b j < d.perfs j))

/-- Specification-side definition for the refinement proof: the expected loop trace —
the expected epoch blocks in epoch order, `j` ranging over `k` epochs
starting at `j₀`, with `b` the first epoch of the whole loop. -/
def specLoop {S O : Type} (d : Driver S O) (b : Nat) :
    Nat → Nat → List (TrainEvent S O)
  | _, 0 => []
  | j, k + 1 => specBlock d b j ++ specLoop d b (j + 1) k

/-- The epochs on which a trace performs a training pass, in order. -/
def trainedEpochs {S O : Type} (tr : List (TrainEvent S O)) : List Nat :=
  tr.filterMap fun ev =>
    match ev with
    | .trainPass j => some j
    | _ => none

/-- A concrete two-epoch driver used to witness the checkpointing
theorem: epoch 0 validates at `1`, epoch 1 at `0`. -/
def witnessDriver : Driver Unit Unit :=
  { perfs := fun i => if i = 0 then 1 else 0
    sd := fun _ => ()
    opt := fun _ => ()
    name := "hourglass_x1" }

end TrainM

/-! ### The configuration system
(src/lib/core/.ipynb_checkpoints/config-checkpoint.py, lines 19-194)

The global `edict` `config` is embedded as an association list from
top-level keys to values; a value is either an opaque atom (scalars,
strings, lists and the wholesale-replaced `MODEL.EXTRA` edict are all
opaque `String` descriptions — `_update_dict`'s preprocessing of
`DATASET.MEAN/STD`, `MODEL.EXTRA.HEATMAP_SIZE` and `MODEL.IMAGE_SIZE`
rewrites only such values, never any key set, so it is invisible at this
granularity) or a one-level nested dict of atoms.  The destructive update
of the Python global is explicit state passing; a raised `ValueError` is
`.error st` with `st` the config state at the raise point, since the
mutations already performed persist past the exception. -/

namespace ConfigM

/-- Opaque representation of an atomic Python value. -/
abbrev Atom := String

/-- A configuration value: an opaque atom or a nested dict of atoms. -/
inductive CVal where
  | atom : Atom → CVal
  | dict : List (String × Atom) → CVal
deriving DecidableEq

/-- A configuration: an association list in insertion order, mirroring a
Python dict. -/
abbrev Config := List (String × CVal)

/-- Python `d[k]` lookup on an association list. -/
def lookupKey {α : Type} : List (String × α) → String → Option α
  | [], _ => none
  | (k', v) :: rest, k => if k' = k then some v else lookupKey rest k

/-- Python `k in d`. -/
def containsKey {α : Type} (l : List (String × α)) (k : String) : Bool :=
  (lookupKey l k).isSome

/-- Python `d[k] = v` for a key already present (the only way the config
code assigns): replaces the stored value, keeping dict order.  On an
absent key it is the identity; all call sites are guarded by a
`k in config` membership test. -/
def setKey {α : Type} : List (String × α) → String → α → List (String × α)
  | [], _, _ => []
  | (k', v') :: rest, k, v =>
      if k' = k then (k', v) :: rest else (k', v') :: setKey rest k v

/-- `config[k][vk]`: the nested atom stored under top-level key `k` and
nested key `vk`. -/
def lookupNested (cfg : Config) (k vk : String) : Option Atom :=
  match lookupKey cfg k with
  | some (.dict d) => lookupKey d vk
  | _ => none

/-- The loop of `_update_dict(k, v)`:
`for vk, vv in v.items(): if vk in config[k]: config[k][vk] = vv else:
raise ValueError(...)`.  The `| _ => .error st` arm covers `vk in
config[k]` on a non-dict config entry, which Python also aborts on (a
`TypeError` for non-sequence values); it is unreachable under the
well-formedness hypotheses used below. -/
def updateDictGo (st : Config) (k : String) :
    List (String × Atom) → Except Config Config
  | [] => .ok st
  | (vk, vv) :: rest =>
      match lookupKey st k with
      | some (.dict d) =>
          if containsKey d vk then
            updateDictGo (setKey st k (.dict (setKey d vk vv))) k rest
          else
            .error st
      | _ => .error st

/-- `config[k][0] = tuple(v)` from the `k == "SCALES"` branch of
`update_config`: an in-place element assignment whose result is
represented as an opaque tagged atom (atoms carry no structure here).
The branch is unreachable from `defaultConfig`, which has no `"SCALES"`
key, so the surrounding `if k in config` raises first. -/
def scalesAssign (old : CVal) (a : Atom) : CVal :=
  match old with
  | .atom o => .atom ("setitem0(" ++ o ++ ", tuple(" ++ a ++ "))")
  | .dict d => .dict d

/-- `update_config(config_file)`: for each top-level item `(k, v)` of the
experiment file, in file order — if `k in config`: dict values go through
`_update_dict`, non-dict values are assigned to `config[k]` (with the
special `"SCALES"` element assignment); otherwise
`raise ValueError(f"...")`. -/
def update_config (cfg : Config) : List (String × CVal) → Except Config Config
  | [] => .ok cfg
  | (k, v) :: rest =>
      if containsKey cfg k then
        match v with
        | .dict d =>
            match updateDictGo cfg k d with
            | .ok cfg' => update_config cfg' rest
            | .error st => .error st
        | .atom a =>
            if k = "SCALES" then
              match lookupKey cfg k with
              | some old => update_config (setKey cfg k (scalesAssign old a)) rest
              | none => update_config cfg rest
            else
              update_config (setKey cfg k (.atom a)) rest
      else
        .error cfg

/-- Whether one experiment entry is fully covered by the defaults: its
top-level key exists and, for dict values, every nested key exists in the
matching default dict. -/
def entryKnown (cfg : Config) (kv : String × CVal) : Bool :=
  containsKey cfg kv.1 &&
    (match kv.2 with
     | .atom _ => true
     | .dict d =>
        match lookupKey cfg kv.1 with
        | some (.dict dd) => d.all fun e => containsKey dd e.1
        | _ => false)

/-- Whether every top-level and nested key of the experiment file exists
in the configuration. -/
def allKeysKnown (cfg : Config) : List (String × CVal) → Bool
  | [] => true
  | kv :: rest => entryKnown cfg kv && allKeysKnown cfg rest

/-- Whether the default entry under `k`, if any, is not an atom — i.e.
`vk in config[k]` is a genuine dict-membership test rather than Python
substring or iteration semantics on an atom. -/
def dictCompat (cfg : Config) (k : String) : Bool :=
  match lookupKey cfg k with
  | some (.atom _) => false
  | _ => true

/-- Well-formedness of one experiment entry against the defaults: dict
values have distinct nested keys and do not collide with an atom-valued
default. -/
def entryWF (cfg : Config) (kv : String × CVal) : Prop :=
  match kv.2 with
  | .atom _ => True
  | .dict d => (d.map Prod.fst).Nodup ∧ dictCompat cfg kv.1 = true

/-- Well-formedness of an experiment file against the defaults: distinct
top-level keys (YAML mappings have unique keys) and well-formed entries. -/
def wellFormedExp (cfg : Config) (exp : List (String × CVal)) : Prop :=
  (exp.map Prod.fst).Nodup ∧ ∀ kv ∈ exp, entryWF cfg kv

/-- The default configuration built at import time by
`lib/core/config.py` (`config = edict(); config.OUTPUT_DIR = ...`).
Atoms are opaque descriptions of the Python values; `MODEL.EXTRA` holds
the `POSE_RESNET` edict selected by `MODEL_EXTRAS[config.MODEL.NAME]`,
wholesale-replaceable and hence atomic here. -/
def defaultConfig : Config := [
  ("OUTPUT_DIR", .atom ""),
  ("LOG_DIR", .atom ""),
  ("DATA_DIR", .atom ""),
  ("GPUS", .atom "0"),
  ("WORKERS", .atom "4"),
  ("PRINT_FREQ", .atom "20"),
  ("SAVE_CKPT_FREQ", .atom "4"),
  ("CUDNN", .dict [
    ("BENCHMARK", "True"),
    ("DETERMINISTIC", "False"),
    ("ENABLED", "True")]),
  ("MODEL", .dict [
    ("MERGE_MODE", "concat"),
    ("CASCADED", "False"),
    ("NAME", "pose_resnet"),
    ("INIT_WEIGHTS", "False"),
    ("PRETRAINED", ""),
    ("TEACHER_CFG", ""),
    ("NUM_JOINTS", "16"),
    ("NUM_CHANNELS", "144"),
    ("IMAGE_SIZE", "[256, 256]"),
    ("EXTRA", "POSE_RESNET"),
    ("STYLE", "pytorch")]),
  ("LOSS", .dict [
    ("USE_TARGET_WEIGHT", "True"),
    ("TD_LAMBDA", "1.0"),
    ("NORMALIZE", "True"),
    ("DISTILLATION_ALPHA", "0.5")]),
  ("DATASET", .dict [
    ("ROOT", ""),
    ("DATASET", "mpii"),
    ("TRAIN_SET", "train"),
    ("TEST_SET", "valid"),
    ("DATA_FORMAT", "jpg"),
    ("HYBRID_JOINTS_TYPE", ""),
    ("SELECT_DATA", "False"),
    ("FLIP", "True"),
    ("SCALE_FACTOR", "0.25"),
    ("ROT_FACTOR", "30")]),
  ("TRAIN", .dict [
    ("LR_FACTOR", "0.1"),
    ("LR_STEP", "[90, 110]"),
    ("LR", "0.001"),
    ("OPTIMIZER", "adam"),
    ("MOMENTUM", "0.9"),
    ("WD", "0.0001"),
    ("NESTEROV", "False"),
    ("GAMMA1", "0.99"),
    ("GAMMA2", "0.0"),
    ("BEGIN_EPOCH", "0"),
    ("END_EPOCH", "140"),
    ("RESUME", "False"),
    ("CHECKPOINT", ""),
    ("BATCH_SIZE", "32"),
    ("SHUFFLE", "True")]),
  ("TEST", .dict [
    ("BATCH_SIZE", "32"),
    ("FLIP_TEST", "False"),
    ("POST_PROCESS", "True"),
    ("SHIFT_HEATMAP", "True"),
    ("USE_GT_BBOX", "False"),
    ("OKS_THRE", "0.5"),
    ("IN_VIS_THRE", "0.0"),
    ("COCO_BBOX_FILE", ""),
    ("BBOX_THRE", "1.0"),
    ("MODEL_FILE", ""),
    ("IMAGE_THRE", "0.0"),
    ("NMS_THRE", "1.0")]),
  ("DEBUG", .dict [
    ("DEBUG", "False"),
    ("SAVE_BATCH_IMAGES_GT", "False"),
    ("SAVE_BATCH_IMAGES_PRED", "False"),
    ("SAVE_HEATMAPS_GT", "False"),
    ("SAVE_HEATMAPS_PRED", "False")])]

end ConfigM

end TDPose

namespace TDPose

namespace PoseNetM

theorem forwardLoop_length {T : Type} (hgs : Nat → T → T × T)
    (add : T → T → T) : ∀ (k i : Nat) (x : T),
    (forwardLoop hgs add i k x).length = k := by
  intro k
  induction k with
  | zero => intro i x; rfl
  | succ k ih =>
      intro i x
      simp [forwardLoop, ih]

theorem loopState_succ_right {T : Type} (hgs : Nat → T → T × T)
    (add : T → T → T) : ∀ (j i : Nat) (x : T),
    loopState hgs add i x (j + 1) =
      add (loopState hgs add i x j)
        (hgs (i + j) (loopState hgs add i x j)).1 := by
  intro j
  induction j with
  | zero => intro i x; simp [loopState]
  | succ j ih =>
      intro i x
      rw [show j + 1 + 1 = (j + 1) + 1 from rfl]
      rw [loopState, ih, loopState]
      have : i + 1 + j = i + (j + 1) := by omega
      rw [this]

theorem forwardLoop_getElem {T : Type} (hgs : Nat → T → T × T)
    (add : T → T → T) : ∀ (k i : Nat) (x : T) (j : Nat), j < k →
    (forwardLoop hgs add i k x)[j]? =
      some (hgs (i + j) (loopState hgs add i x j)).2 := by
  intro k
  induction k with
  | zero => intro i x j hj; omega
  | succ k ih =>
      intro i x j hj
      cases j with
      | zero => simp [forwardLoop, loopState]
      | succ j =>
          have hj' : j < k := by omega
          have := ih (i + 1) (add x (hgs i x).1) j hj'
          simp only [forwardLoop, List.getElem?_cons_succ]
          rw [this]
          have harg : i + 1 + j = i + (j + 1) := by omega
          rw [harg, loopState]

theorem hgInput_eq_loopState {T : Type} (head_layer : T → T)
    (hgs : Nat → T → T × T) (add : T → T → T) (x : T) :
    ∀ j, hgInput head_layer hgs add x j =
      loopState hgs add 0 (head_layer x) j := by
  intro j
  induction j with
  | zero => rfl
  | succ j ih =>
      rw [hgInput, loopState_succ_right, ih]
      simp

end PoseNetM

namespace ShapeM

theorem conv2dOut_three (n : Nat) (hn : 0 < n) : conv2dOut 3 1 1 n = n := by
  simp only [conv2dOut, Nat.div_one]
  omega

theorem conv2dOut_one (n : Nat) (hn : 0 < n) : conv2dOut 1 1 0 n = n := by
  simp only [conv2dOut, Nat.div_one]
  omega

theorem conv2dOut_pool (k : Nat) (hk : 0 < k) : conv2dOut 2 2 0 (2 * k) = k := by
  simp only [conv2dOut]
  have h2 : 2 * k + 2 * 0 - 2 = 2 * (k - 1) := by omega
  rw [h2, Nat.mul_div_cancel_left _ (by omega : 0 < 2)]
  omega

theorem conv3Shape_id (d : Nat × Nat) (h1 : 0 < d.1) (h2 : 0 < d.2) :
    conv3Shape d = d := by
  cases d
  simp only [conv3Shape]
  rw [conv2dOut_three _ h1, conv2dOut_three _ h2]

theorem conv1Shape_id (d : Nat × Nat) (h1 : 0 < d.1) (h2 : 0 < d.2) :
    conv1Shape d = d := by
  cases d
  simp only [conv1Shape]
  rw [conv2dOut_one _ h1, conv2dOut_one _ h2]

theorem poolShape_half (m n : Nat) (hm : 0 < m) (hn : 0 < n) :
    poolShape (2 * m, 2 * n) = (m, n) := by
  simp only [poolShape]
  rw [conv2dOut_pool _ hm, conv2dOut_pool _ hn]

theorem vanillaResShape_id (d : Nat × Nat) (h1 : 0 < d.1) (h2 : 0 < d.2) :
    vanillaResShape d = some d := by
  simp [vanillaResShape, conv3Shape_id d h1 h2, addShape]

theorem multiScaleResShape_id (d : Nat × Nat) (h1 : 0 < d.1) (h2 : 0 < d.2) :
    multiScaleResShape d = some d := by
  simp [multiScaleResShape, conv3Shape_id d h1 h2, addShape]

theorem encodeShape_half (resShape : Nat × Nat → Option (Nat × Nat))
    (hres : ∀ d, 0 < d.1 → 0 < d.2 → resShape d = some d)
    (m n : Nat) (hm : 0 < m) (hn : 0 < n) :
    encodeShape resShape (2 * m, 2 * n) = some (m, n) := by
  have hr := hres (2 * m, 2 * n) (by simpa using by omega) (by simpa using by omega)
  simp only [encodeShape, hr, Option.bind_eq_bind, Option.some_bind]
  rw [poolShape_half m n hm hn, conv3Shape_id (m, n) hm hn]
  rfl

theorem mergeDecoderShape_double (m n : Nat) (hm : 0 < m) (hn : 0 < n) :
    mergeDecoderShape (m, n) (2 * m, 2 * n) = some (2 * m, 2 * n) := by
  simp only [mergeDecoderShape, upShape]
  rw [if_pos trivial, conv3Shape_id (2 * m, 2 * n) (by simpa using by omega)
    (by simpa using by omega)]

end ShapeM

/-- C2.  Encoder/decoder hourglass symmetry: for every spatially
size-preserving residual block (both `VanillaResblock` and
`MultiScaleResblock` qualify, see `vanillaResShape_id` and
`multiScaleResShape_id`) and every input whose spatial dimensions are
positive and divisible by 16, each of the four encoder stages halves the
spatial resolution, each of the three merge-decoders doubles it while
merging with the matching encoder feature, and after the final 2x upsample
`HourGlass.forward` returns both tensors — residual and logits — at
exactly the input's spatial resolution. -/
theorem C2_hourglass_encoder_decoder_symmetry
    (resShape : Nat × Nat → Option (Nat × Nat))
    (hres : ∀ d, 0 < d.1 → 0 < d.2 → resShape d = some d)
    (h w : Nat) (useConversionConv : Bool)
    (hdvd_h : 16 ∣ h) (hdvd_w : 16 ∣ w) (hh : 0 < h) (hw : 0 < w) :
    (∀ m n, 0 < m → 0 < n →
      ShapeM.encodeShape resShape (2 * m, 2 * n) = some (m, n)) ∧
    (∀ m n, 0 < m → 0 < n →
      ShapeM.mergeDecoderShape (m, n) (2 * m, 2 * n) = some (2 * m, 2 * n)) ∧
    ShapeM.hourglassShape resShape useConversionConv (h, w) =
      some ((h, w), (h, w)) := by
  obtain ⟨a, rfl⟩ := hdvd_h
  obtain ⟨b, rfl⟩ := hdvd_w
  have ha : 0 < a := by omega
  have hb : 0 < b := by omega
  refine ⟨fun m n hm hn => ShapeM.encodeShape_half resShape hres m n hm hn,
    fun m n hm hn => ShapeM.mergeDecoderShape_double m n hm hn, ?_⟩
  have e1 : ShapeM.encodeShape resShape (16 * a, 16 * b) = some (8 * a, 8 * b) := by
    rw [show (16 * a, 16 * b) = (2 * (8 * a), 2 * (8 * b)) by ring_nf]
    exact ShapeM.encodeShape_half resShape hres _ _ (by omega) (by omega)
  have e2 : ShapeM.encodeShape resShape (8 * a, 8 * b) = some (4 * a, 4 * b) := by
    rw [show (8 * a, 8 * b) = (2 * (4 * a), 2 * (4 * b)) by ring_nf]
    exact ShapeM.encodeShape_half resShape hres _ _ (by omega) (by omega)
  have e3 : ShapeM.encodeShape resShape (4 * a, 4 * b) = some (2 * a, 2 * b) := by
    rw [show (4 * a, 4 * b) = (2 * (2 * a), 2 * (2 * b)) by ring_nf]
    exact ShapeM.encodeShape_half resShape hres _ _ (by omega) (by omega)
  have e4 : ShapeM.encodeShape resShape (2 * a, 2 * b) = some (a, b) :=
    ShapeM.encodeShape_half resShape hres _ _ ha hb
  have d1 : ShapeM.mergeDecoderShape (a, b) (2 * a, 2 * b) =
      some (2 * a, 2 * b) := ShapeM.mergeDecoderShape_double a b ha hb
  have d2 : ShapeM.mergeDecoderShape (2 * a, 2 * b) (4 * a, 4 * b) =
      some (4 * a, 4 * b) := by
    rw [show (4 * a, 4 * b) = (2 * (2 * a), 2 * (2 * b)) by ring_nf]
    exact ShapeM.mergeDecoderShape_double _ _ (by omega) (by omega)
  have d3 : ShapeM.mergeDecoderShape (4 * a, 4 * b) (8 * a, 8 * b) =
      some (8 * a, 8 * b) := by
    rw [show (8 * a, 8 * b) = (2 * (4 * a), 2 * (4 * b)) by ring_nf]
    exact ShapeM.mergeDecoderShape_double _ _ (by omega) (by omega)
  have hup : ShapeM.upShape (8 * a, 8 * b) = (16 * a, 16 * b) := by
    simp only [ShapeM.upShape]
    ring_nf
  have hc3 : ShapeM.conv3Shape (16 * a, 16 * b) = (16 * a, 16 * b) :=
    ShapeM.conv3Shape_id _ (by simpa using by omega) (by simpa using by omega)
  have hc1 : ShapeM.conv1Shape (16 * a, 16 * b) = (16 * a, 16 * b) :=
    ShapeM.conv1Shape_id _ (by simpa using by omega) (by simpa using by omega)
  have hfm : ShapeM.featureMapShape resShape (16 * a, 16 * b) =
      some (16 * a, 16 * b) := by
    have hr := hres (16 * a, 16 * b) (by simpa using by omega) (by simpa using by omega)
    simp only [ShapeM.featureMapShape, hr, Option.bind_eq_bind, Option.some_bind, hc1]
    rfl
  cases useConversionConv with
  | false =>
      simp [ShapeM.hourglassShape, e1, e2, e3, e4, d1, d2, d3,
        hup, hc3, hfm, hc1, ShapeM.addShape]
  | true =>
      simp [ShapeM.hourglassShape, e1, e2, e3, e4, d1, d2, d3,
        hup, hc3, hfm, hc1, ShapeM.addShape]

/-- Witness for C2 at a concrete instance: `VanillaResblock` shape
semantics, a `16 × 16` input, no conversion convolution. -/
theorem C2_hourglass_encoder_decoder_symmetry_witness :
    (∀ m n, 0 < m → 0 < n →
      ShapeM.encodeShape ShapeM.vanillaResShape (2 * m, 2 * n) = some (m, n)) ∧
    (∀ m n, 0 < m → 0 < n →
      ShapeM.mergeDecoderShape (m, n) (2 * m, 2 * n) = some (2 * m, 2 * n)) ∧
    ShapeM.hourglassShape ShapeM.vanillaResShape false (16, 16) =
      some ((16, 16), (16, 16)) :=
  C2_hourglass_encoder_decoder_symmetry ShapeM.vanillaResShape
    (fun d h1 h2 => ShapeM.vanillaResShape_id d h1 h2)
    16 16 false (by decide) (by decide) (by decide) (by decide)

/-- C1.  Multi-stack refinement: for every `n_stacks ≥ 1`, every head
layer, hourglass family, tensor addition and input batch, `PoseNet.forward`
applies the head layer first and then runs the `n_stacks` hourglasses
sequentially: the input to hourglass `i+1` is the input of hourglass `i`
plus the residual returned by hourglass `i` (`hgInput`), and the result is
the list of per-stack logit tensors, of length `n_stacks`, whose `i`-th
entry is the logits hourglass `i` produced on its input — i.e. the stacked
per-stack logit maps in stack order. -/
theorem C1_posenet_multistack_refinement {T : Type} (n_stacks : Nat)
    (hn : 1 ≤ n_stacks) (head_layer : T → T) (hgs : Nat → T → T × T)
    (add : T → T → T) (x : T) :
    (PoseNetM.forward n_stacks head_layer hgs add x).length = n_stacks ∧
    ∀ i, i < n_stacks →
      (PoseNetM.forward n_stacks head_layer hgs add x)[i]? =
        some (hgs i (PoseNetM.hgInput head_layer hgs add x i)).2 := by
  constructor
  · exact PoseNetM.forwardLoop_length hgs add n_stacks 0 (head_layer x)
  · intro i hi
    rw [PoseNetM.forward,
      PoseNetM.forwardLoop_getElem hgs add n_stacks 0 (head_layer x) i hi,
      PoseNetM.hgInput_eq_loopState]
    simp

/-- Witness for C1 at a concrete instance: `n_stacks = 2` over `T = Nat`
with `head_layer = id`, hourglass `i` returning `(x + 1, 10 * x)` and
ordinary addition. -/
theorem C1_posenet_multistack_refinement_witness :
    (PoseNetM.forward 2 (fun t => t) (fun _ t => (t + 1, 10 * t))
        (fun a b => a + b) 5).length = 2 ∧
    ∀ i, i < 2 →
      (PoseNetM.forward 2 (fun t => t) (fun _ t => (t + 1, 10 * t))
          (fun a b => a + b) 5)[i]? =
        some ((fun (_ : Nat) (t : Nat) => (t + 1, 10 * t)) i
          (PoseNetM.hgInput (fun t => t) (fun _ t => (t + 1, 10 * t))
            (fun a b => a + b) 5 i)).2 :=
  C1_posenet_multistack_refinement 2 (by decide) (fun t => t)
    (fun _ t => (t + 1, 10 * t)) (fun a b => a + b) 5

/-- C3 (code bug).  Channel-count evaluation of the residual blocks at the
channel configuration `HeadLayer.res_3` uses with the default
`NUM_CHANNELS` (`in_channels = 64`, `out_channels = 144`): on a
64-channel input, `VanillaResblock.forward` fails — its
`_remap_conv = Conv2d(64, 144, kernel_size=1)` is applied to the
144-channel sum `residual + identity`, a channel mismatch — whereas with
equal in/out channels it yields the expected channel count, and
`MultiScaleResblock.forward` does return 144 channels at the same
configuration (its concat branch restores 64 channels before the remap
convolution). -/
theorem C3_resblock_channel_semantics :
    ChannelM.vanillaResblockCh 64 144 64 = none ∧
    ChannelM.vanillaResblockCh 64 64 64 = some 64 ∧
    ChannelM.multiScaleResblockCh 64 144 64 = some 144 := by
  decide

/-- C9.  Zero-initialised gating: a freshly constructed `IdentityMapping`
in mode `single` or `per_channel` has `alpha` identically zero and its
`forward` returns the all-zero tensor on every input; consequently a
freshly constructed `VanillaResblock` in those modes (with equal in/out
channels, so no remap convolution runs) outputs exactly its convolutional
residual branch `bn2(conv2(relu(bn1(conv1(x)))))`; in mode `standard`,
`forward` returns the identity — skip-convolved exactly when the channel
counts differ — unscaled. -/
theorem C9_zero_initialised_gating (inC outC : Nat)
    (skipConv conv1 bn1 conv2 bn2 relu remapConv :
      ValueM.Tensor → ValueM.Tensor) (x : ValueM.Tensor) :
    (∀ c, (ValueM.IdentityMapping.init inC outC .single skipConv).alpha c = 0) ∧
    (∀ c, (ValueM.IdentityMapping.init inC outC .per_channel skipConv).alpha c = 0) ∧
    (ValueM.IdentityMapping.init inC outC .single skipConv).forward x =
      ValueM.zeroT ∧
    (ValueM.IdentityMapping.init inC outC .per_channel skipConv).forward x =
      ValueM.zeroT ∧
    (inC = outC →
      (ValueM.VanillaResblock.init inC outC .single
          conv1 bn1 conv2 bn2 relu remapConv skipConv).forward x =
        bn2 (conv2 (relu (bn1 (conv1 x))))) ∧
    (inC = outC →
      (ValueM.VanillaResblock.init inC outC .per_channel
          conv1 bn1 conv2 bn2 relu remapConv skipConv).forward x =
        bn2 (conv2 (relu (bn1 (conv1 x))))) ∧
    (ValueM.IdentityMapping.init inC outC .standard skipConv).forward x =
      (if inC ≠ outC then skipConv x else x) := by
  refine ⟨fun c => rfl, fun c => rfl, ?_, ?_, ?_, ?_, ?_⟩
  · funext c p
    simp [ValueM.IdentityMapping.forward, ValueM.IdentityMapping.applyGating,
      ValueM.IdentityMapping.init, ValueM.zeroT]
  · funext c p
    simp [ValueM.IdentityMapping.forward, ValueM.IdentityMapping.applyGating,
      ValueM.IdentityMapping.init, ValueM.zeroT]
  · intro h
    subst h
    funext c p
    simp [ValueM.VanillaResblock.forward, ValueM.VanillaResblock.init,
      ValueM.IdentityMapping.forward, ValueM.IdentityMapping.applyGating,
      ValueM.IdentityMapping.init, ValueM.addT]
  · intro h
    subst h
    funext c p
    simp [ValueM.VanillaResblock.forward, ValueM.VanillaResblock.init,
      ValueM.IdentityMapping.forward, ValueM.IdentityMapping.applyGating,
      ValueM.IdentityMapping.init, ValueM.addT]
  · by_cases h : inC = outC
    · subst h
      simp [ValueM.IdentityMapping.forward, ValueM.IdentityMapping.applyGating,
        ValueM.IdentityMapping.init]
    · simp [ValueM.IdentityMapping.forward, ValueM.IdentityMapping.applyGating,
        ValueM.IdentityMapping.init, h]

/-- Witness for C9 at a concrete instance: channels `1 → 1`, all abstract
layers the identity function, zero input; the residual-block conjunct is
applied with its channel-equality hypothesis discharged. -/
theorem C9_zero_initialised_gating_witness :
    (ValueM.IdentityMapping.init 1 1 .single id).forward ValueM.zeroT =
      ValueM.zeroT ∧
    (ValueM.VanillaResblock.init 1 1 .single
        id id id id id id id).forward ValueM.zeroT =
      id (id (id (id (id ValueM.zeroT)))) :=
  ⟨(C9_zero_initialised_gating 1 1 id id id id id id id ValueM.zeroT).2.2.1,
   (C9_zero_initialised_gating 1 1 id id id id id id id
      ValueM.zeroT).2.2.2.2.1 rfl⟩

namespace HgsM

theorem allocDistinct_length : ∀ (n fresh i : Nat),
    (allocDistinct fresh i n).length = n := by
  intro n
  induction n with
  | zero => intro fresh i; rfl
  | succ n ih => intro fresh i; simp [allocDistinct, newHourGlass, ih]

theorem allocDistinct_getElem : ∀ (n fresh i j : Nat), j < n →
    (allocDistinct fresh i n)[j]? = some ⟨fresh + j, i + j⟩ := by
  intro n
  induction n with
  | zero => intro fresh i j hj; omega
  | succ n ih =>
      intro fresh i j hj
      cases j with
      | zero => simp [allocDistinct, newHourGlass]
      | succ j =>
          have hj' : j < n := by omega
          simp only [allocDistinct, newHourGlass, List.getElem?_cons_succ]
          rw [ih (fresh + 1) (i + 1) j hj']
          congr 2 <;> omega

end HgsM

/-- C8.  Weight sharing across stacks: `PoseNet._setup_hgs` builds a
module list of length `n_stacks`; when `share_weights` is set to true all
entries are the very same `HourGlass` instance (the one constructed with
`stack_i = 0`), so every stack evaluates with the same parameters and a
parameter update affects all stacks at once; when `share_weights` is false
or absent (kwargs default `False`), the entries are `n_stacks` pairwise
distinct instances. -/
theorem C8_weight_sharing_across_stacks (share_weights : Option Bool)
    (n_stacks fresh : Nat) :
    (HgsM.setupHgs share_weights n_stacks fresh).length = n_stacks ∧
    (share_weights.getD false = true →
      ∀ i, i < n_stacks →
        (HgsM.setupHgs share_weights n_stacks fresh)[i]? = some ⟨fresh, 0⟩) ∧
    (share_weights.getD false = false →
      (∀ i, i < n_stacks →
        (HgsM.setupHgs share_weights n_stacks fresh)[i]? =
          some ⟨fresh + i, i⟩) ∧
      ∀ i j, i < n_stacks → j < n_stacks → i ≠ j →
        (HgsM.setupHgs share_weights n_stacks fresh)[i]? ≠
          (HgsM.setupHgs share_weights n_stacks fresh)[j]?) := by
  refine ⟨?_, ?_, ?_⟩
  · by_cases h : share_weights.getD false = true
    · simp [HgsM.setupHgs, h, HgsM.newHourGlass]
    · simp only [Bool.not_eq_true] at h
      simp [HgsM.setupHgs, h, HgsM.allocDistinct_length]
  · intro h i hi
    simp [HgsM.setupHgs, h, HgsM.newHourGlass, List.getElem?_replicate, hi]
  · intro h
    have hget : ∀ i, i < n_stacks →
        (HgsM.setupHgs share_weights n_stacks fresh)[i]? =
          some ⟨fresh + i, i⟩ := by
      intro i hi
      simp only [HgsM.setupHgs, h, Bool.false_eq_true, if_false]
      rw [HgsM.allocDistinct_getElem n_stacks fresh 0 i hi]
      simp
    refine ⟨hget, fun i j hi hj hij => ?_⟩
    rw [hget i hi, hget j hj]
    intro hcontra
    have := Option.some.inj hcontra
    have := congrArg HgsM.HourGlassInst.stack_i this
    simp at this
    exact hij this

/-- Witness for C8 at concrete instances: with `share_weights = some true`
both entries of a 2-stack list are the single constructed object; with
`share_weights` absent (`none`) the two entries are distinct objects. -/
theorem C8_weight_sharing_across_stacks_witness :
    (HgsM.setupHgs (some true) 2 0)[1]? = some ⟨0, 0⟩ ∧
    (HgsM.setupHgs none 2 0)[0]? ≠ (HgsM.setupHgs none 2 0)[1]? :=
  ⟨(C8_weight_sharing_across_stacks (some true) 2 0).2.1 rfl 1 (by decide),
   ((C8_weight_sharing_across_stacks none 2 0).2.2 rfl).2 0 1
     (by decide) (by decide) (by decide)⟩

namespace TrainM

theorem bestBefore_self (perfs : Nat → ℚ) (b : Nat) :
    bestBefore perfs b b = 0 := by
  simp [bestBefore]

theorem bestBefore_succ (perfs : Nat → ℚ) (b i : Nat) (h : b ≤ i) :
    bestBefore perfs b (i + 1) = max (bestBefore perfs b i) (perfs i) := by
  unfold bestBefore
  have h1 : i + 1 - b = (i - b) + 1 := by omega
  rw [h1, List.range'_1_concat]
  have h2 : b + (i - b) = i := by omega
  rw [h2, List.map_append, List.foldl_append]
  simp

theorem if_lt_eq_max (b p : ℚ) : (if b < p then p else b) = max b p := by
  rcases lt_or_ge b p with h | h
  · rw [if_pos h, max_eq_right h.le]
  · rw [if_neg (not_lt.mpr h), max_eq_left h]

theorem trainLoop_eq_specLoop {S O : Type} (d : Driver S O) (b : Nat) :
    ∀ k i, b ≤ i →
      trainLoop d i k (bestBefore d.perfs b i) = specLoop d b i k := by
  intro k
  induction k with
  | zero => intro i _; rfl
  | succ k ih =>
      intro i h
      show ([.trainPass i, .schedStep, .validate i] ++
          save_checkpoint (d.saveDict i)
            (decide (bestBefore d.perfs b i < d.perfs i))) ++
          trainLoop d (i + 1) k
            (if bestBefore d.perfs b i < d.perfs i then d.perfs i
             else bestBefore d.perfs b i) =
        specBlock d b i ++ specLoop d b (i + 1) k
      rw [if_lt_eq_max, ← bestBefore_succ d.perfs b i h, specBlock]
      rw [ih (i + 1) (by omega)]

theorem trainedEpochs_specLoop {S O : Type} (d : Driver S O) (b : Nat) :
    ∀ k j, trainedEpochs (specLoop d b j k) = List.range' j k := by
  intro k
  induction k with
  | zero => intro j; rfl
  | succ k ih =>
      intro j
      rw [List.range'_succ]
      by_cases h : bestBefore d.perfs b j < d.perfs j
      · simp only [specLoop, specBlock, save_checkpoint, trainedEpochs, h,
          List.filterMap_append, List.filterMap, List.nil_append,
          decide_eq_true_eq, if_true, List.cons_append, List.cons.injEq,
          true_and]
        exact ih (j + 1)
      · simp only [specLoop, specBlock, save_checkpoint, trainedEpochs, h,
          List.filterMap_append, List.filterMap, List.nil_append,
          decide_eq_true_eq, if_false, List.cons_append, List.cons.injEq,
          true_and]
        exact ih (j + 1)

end TrainM

/-- C6.  Standard train/validate loop: the epoch loop of `main` runs over
exactly the epochs `TRAIN.BEGIN_EPOCH, ..., TRAIN.END_EPOCH - 1` (the
`e - b` epochs starting at `b`), and its trace is precisely one block per
epoch, in epoch order, each block being — in this order — one training
pass, one scheduler step, one validation pass, and one checkpoint save
(`specBlock`); no epoch skips or reorders these steps. -/
theorem C6_standard_train_validate_loop {S O : Type} (d : TrainM.Driver S O)
    (b e : Nat) :
    TrainM.trainLoop d b (e - b) 0 = TrainM.specLoop d b b (e - b) ∧
    TrainM.trainedEpochs (TrainM.trainLoop d b (e - b) 0) =
      List.range' b (e - b) := by
  have h0 : TrainM.trainLoop d b (e - b) 0 = TrainM.specLoop d b b (e - b) := by
    rw [show (0 : ℚ) = TrainM.bestBefore d.perfs b b from
      (TrainM.bestBefore_self d.perfs b).symm]
    exact TrainM.trainLoop_eq_specLoop d b (e - b) b le_rfl
  exact ⟨h0, by rw [h0, TrainM.trainedEpochs_specLoop d b (e - b) b]⟩

/-- C4.  Checkpointing: when the epoch range is nonempty, the driver's
trace consists of the per-epoch blocks followed by one final save to
`'final_state.pth.tar'` that is never marked best (it is the sole final
event); each epoch `j`'s block saves `'checkpoint.pth.tar'` and
additionally saves `'model_best.pth.tar'` exactly when the epoch's
validation performance strictly exceeds the maximum of `0` and all
previous epochs' performances (`bestBefore`); and every saved dict holds
the next epoch index `j + 1`, the model name, the state dict, the
validation performance, and the optimizer state. -/
theorem C4_checkpointing {S O : Type} (d : TrainM.Driver S O) (b e : Nat)
    (hbe : b < e) :
    TrainM.mainTrace d b e = some (TrainM.specLoop d b b (e - b) ++
      [TrainM.TrainEvent.save "final_state.pth.tar" (d.saveDict (e - 1))]) ∧
    (∀ j, TrainM.specBlock d b j =
      [TrainM.TrainEvent.trainPass j, TrainM.TrainEvent.schedStep,
       TrainM.TrainEvent.validate j,
       TrainM.TrainEvent.save "checkpoint.pth.tar" (d.saveDict j)] ++
      (if TrainM.bestBefore d.perfs b j < d.perfs j then
        [TrainM.TrainEvent.save "model_best.pth.tar" (d.saveDict j)]
       else [])) ∧
    (∀ j, (d.saveDict j).epoch_i = j + 1 ∧ (d.saveDict j).model = d.name ∧
      (d.saveDict j).state_dict = d.sd j ∧ (d.saveDict j).perf = d.perfs j ∧
      (d.saveDict j).optimizer = d.opt j) := by
  refine ⟨?_, ?_, fun j => ⟨rfl, rfl, rfl, rfl, rfl⟩⟩
  · rw [TrainM.mainTrace, if_pos hbe]
    rw [show (0 : ℚ) = TrainM.bestBefore d.perfs b b from
      (TrainM.bestBefore_self d.perfs b).symm]
    rw [TrainM.trainLoop_eq_specLoop d b (e - b) b le_rfl]
    rfl
  · intro j
    by_cases h : TrainM.bestBefore d.perfs b j < d.perfs j
    · simp [TrainM.specBlock, TrainM.save_checkpoint, h]
    · simp [TrainM.specBlock, TrainM.save_checkpoint, h]

namespace ConfigM

theorem lookupKey_setKey_self {α : Type} (l : List (String × α)) (k : String)
    (v : α) (h : containsKey l k = true) :
    lookupKey (setKey l k v) k = some v := by
  induction l with
  | nil => simp [containsKey, lookupKey] at h
  | cons kv rest ih =>
      obtain ⟨k', v'⟩ := kv
      by_cases hk : k' = k
      · simp [setKey, hk, lookupKey]
      · simp only [containsKey, lookupKey, if_neg hk] at h
        simp only [setKey, if_neg hk, lookupKey, if_neg hk]
        exact ih h

theorem lookupKey_setKey_other {α : Type} (l : List (String × α))
    (k k' : String) (v : α) (h : k' ≠ k) :
    lookupKey (setKey l k v) k' = lookupKey l k' := by
  induction l with
  | nil => rfl
  | cons kv rest ih =>
      obtain ⟨k₀, v₀⟩ := kv
      by_cases hk : k₀ = k
      · have hne : ¬(k₀ = k') := fun hc => h (hc ▸ hk)
        simp only [setKey, if_pos hk, lookupKey, if_neg hne]
      · simp only [setKey, if_neg hk, lookupKey]
        by_cases hk' : k₀ = k'
        · rw [if_pos hk', if_pos hk']
        · rw [if_neg hk', if_neg hk']
          exact ih

theorem setKey_of_not_contains {α : Type} (l : List (String × α))
    (k : String) (v : α) (h : containsKey l k = false) : setKey l k v = l := by
  induction l with
  | nil => rfl
  | cons kv rest ih =>
      obtain ⟨k₀, v₀⟩ := kv
      by_cases hk : k₀ = k
      · simp [containsKey, lookupKey, hk] at h
      · simp only [containsKey, lookupKey, if_neg hk] at h
        simp [setKey, hk, ih h]

theorem containsKey_setKey {α : Type} (l : List (String × α))
    (k x : String) (v : α) :
    containsKey (setKey l k v) x = containsKey l x := by
  by_cases hx : x = k
  · subst hx
    by_cases hc : containsKey l x = true
    · rw [containsKey, lookupKey_setKey_self l x v hc, hc]
      rfl
    · rw [Bool.not_eq_true] at hc
      rw [setKey_of_not_contains l x v hc]
  · rw [containsKey, lookupKey_setKey_other l k x v hx, containsKey]

theorem updateDictGo_cons_dict (st : Config) (k vk : String) (vv : Atom)
    (rest : List (String × Atom)) (dd : List (String × Atom))
    (hdd : lookupKey st k = some (.dict dd)) :
    updateDictGo st k ((vk, vv) :: rest) =
      if containsKey dd vk then
        updateDictGo (setKey st k (.dict (setKey dd vk vv))) k rest
      else .error st := by
  simp only [updateDictGo, hdd]

theorem updateDictGo_cons_other (st : Config) (k vk : String) (vv : Atom)
    (rest : List (String × Atom))
    (h : ∀ dd, lookupKey st k ≠ some (.dict dd)) :
    updateDictGo st k ((vk, vv) :: rest) = .error st := by
  simp only [updateDictGo]

theorem updateDictGo_pres (k : String) :
    ∀ (d : List (String × Atom)) (cfg cfg' : Config),
      updateDictGo cfg k d = .ok cfg' →
      ∀ x, x ≠ k → lookupKey cfg' x = lookupKey cfg x := by
  intro d
  induction d with
  | nil =>
      intro cfg cfg' h x _
      simp only [updateDictGo] at h
      cases h
      rfl
  | cons e rest ih =>
      obtain ⟨vk, vv⟩ := e
      intro cfg cfg' h x hx
      cases hcl : lookupKey cfg k with
      | none =>
          rw [updateDictGo_cons_other _ _ _ _ _ (by simp [hcl])] at h
          cases h
      | some val =>
          cases val with
          | atom a =>
              rw [updateDictGo_cons_other _ _ _ _ _ (by simp [hcl])] at h
              cases h
          | dict dd =>
              rw [updateDictGo_cons_dict _ _ _ _ _ dd hcl] at h
              by_cases hvk : containsKey dd vk = true
              · rw [if_pos hvk] at h
                exact (ih _ _ h x hx).trans (lookupKey_setKey_other _ _ _ _ hx)
              · rw [if_neg hvk] at h
                cases h

theorem updateDictGo_main (k : String) :
    ∀ (d : List (String × Atom)) (cfg : Config) (dd : List (String × Atom)),
      lookupKey cfg k = some (.dict dd) →
      (d.all fun e => containsKey dd e.1) = true →
      (d.map Prod.fst).Nodup →
      ∃ cfg' dd', updateDictGo cfg k d = .ok cfg' ∧
        lookupKey cfg' k = some (.dict dd') ∧
        (∀ vk vv, (vk, vv) ∈ d → lookupKey dd' vk = some vv) ∧
        (∀ x, x ≠ k → lookupKey cfg' x = lookupKey cfg x) ∧
        (∀ y, y ∉ d.map Prod.fst → lookupKey dd' y = lookupKey dd y) := by
  intro d
  induction d with
  | nil =>
      intro cfg dd hdd _ _
      exact ⟨cfg, dd, rfl, hdd, by simp, fun _ _ => rfl, fun _ _ => rfl⟩
  | cons e rest ih =>
      obtain ⟨vk, vv⟩ := e
      intro cfg dd hdd hall hnd
      rw [List.all_cons, Bool.and_eq_true] at hall
      have hvk : containsKey dd vk = true := hall.1
      have hall' : (rest.all fun e => containsKey (setKey dd vk vv) e.1) = true := by
        simpa only [containsKey_setKey] using hall.2
      have hck : containsKey cfg k = true := by simp [containsKey, hdd]
      have hlook₁ : lookupKey (setKey cfg k (.dict (setKey dd vk vv))) k =
          some (.dict (setKey dd vk vv)) := lookupKey_setKey_self _ _ _ hck
      rw [List.map_cons, List.nodup_cons] at hnd
      obtain ⟨cfg', dd', hok, hlk, hmem, hpres, hnested⟩ :=
        ih (setKey cfg k (.dict (setKey dd vk vv))) (setKey dd vk vv)
          hlook₁ hall' hnd.2
      refine ⟨cfg', dd', ?_, hlk, ?_, ?_, ?_⟩
      · rw [updateDictGo_cons_dict _ _ _ _ _ dd hdd, if_pos hvk]
        exact hok
      · intro vk2 vv2 hmem2
        rcases List.mem_cons.mp hmem2 with heq | htail
        · injection heq with h1 h2
          subst h1
          subst h2
          rw [hnested vk2 hnd.1, lookupKey_setKey_self _ _ _ hvk]
        · exact hmem _ _ htail
      · intro x hx
        rw [hpres x hx, lookupKey_setKey_other _ _ _ _ hx]
      · intro y hy
        rw [List.map_cons, List.mem_cons] at hy
        push_neg at hy
        rw [hnested y hy.2, lookupKey_setKey_other _ _ _ _ hy.1]

theorem updateDictGo_fail (k : String) :
    ∀ (d : List (String × Atom)) (cfg : Config) (dd : List (String × Atom)),
      lookupKey cfg k = some (.dict dd) →
      (d.all fun e => containsKey dd e.1) = false →
      ∃ st, updateDictGo cfg k d = .error st := by
  intro d
  induction d with
  | nil => intro cfg dd _ hall; simp at hall
  | cons e rest ih =>
      obtain ⟨vk, vv⟩ := e
      intro cfg dd hdd hall
      by_cases hvk : containsKey dd vk = true
      · rw [List.all_cons, hvk, Bool.true_and] at hall
        have hall2 : (rest.all fun e => containsKey (setKey dd vk vv) e.1) = false := by
          simpa only [containsKey_setKey] using hall
        have hck : containsKey cfg k = true := by simp [containsKey, hdd]
        obtain ⟨st, hst⟩ := ih (setKey cfg k (.dict (setKey dd vk vv)))
          (setKey dd vk vv) (lookupKey_setKey_self _ _ _ hck) hall2
        refine ⟨st, ?_⟩
        rw [updateDictGo_cons_dict _ _ _ _ _ dd hdd, if_pos hvk]
        exact hst
      · refine ⟨cfg, ?_⟩
        rw [updateDictGo_cons_dict _ _ _ _ _ dd hdd, if_neg hvk]

theorem allKeysKnown_congr : ∀ (exp : List (String × CVal)) (c1 c2 : Config),
    (∀ kv ∈ exp, lookupKey c1 kv.1 = lookupKey c2 kv.1) →
    allKeysKnown c1 exp = allKeysKnown c2 exp := by
  intro exp
  induction exp with
  | nil => intro c1 c2 _; rfl
  | cons kv rest ih =>
      intro c1 c2 h
      have h1 := h kv (List.mem_cons_self kv rest)
      simp only [allKeysKnown, entryKnown, containsKey, h1]
      rw [ih c1 c2 (fun e he => h e (List.mem_cons_of_mem kv he))]

theorem dictCompat_congr (c1 c2 : Config) (k : String)
    (h : lookupKey c1 k = lookupKey c2 k) :
    dictCompat c1 k = dictCompat c2 k := by
  simp only [dictCompat, h]

theorem entryWF_congr (c1 c2 : Config) (kv : String × CVal)
    (h : lookupKey c1 kv.1 = lookupKey c2 kv.1) :
    entryWF c1 kv ↔ entryWF c2 kv := by
  obtain ⟨k2, v2⟩ := kv
  cases v2 with
  | atom a => exact Iff.rfl
  | dict d => simp only [entryWF, dictCompat_congr c1 c2 k2 h]

theorem update_config_cons_atom (cfg : Config) (k : String) (a : Atom)
    (rest : List (String × CVal)) (hck : containsKey cfg k = true)
    (hks : k ≠ "SCALES") :
    update_config cfg ((k, .atom a) :: rest) =
      update_config (setKey cfg k (.atom a)) rest := by
  simp [update_config, hck, hks]

theorem update_config_cons_dict (cfg : Config) (k : String)
    (d : List (String × Atom)) (rest : List (String × CVal))
    (hck : containsKey cfg k = true) :
    update_config cfg ((k, .dict d) :: rest) =
      match updateDictGo cfg k d with
      | .ok cfg' => update_config cfg' rest
      | .error st => .error st := by
  simp [update_config, hck]

theorem update_config_cons_unknown (cfg : Config) (k : String) (v : CVal)
    (rest : List (String × CVal)) (hck : containsKey cfg k = false) :
    update_config cfg ((k, v) :: rest) = .error cfg := by
  simp [update_config, hck]

theorem update_config_ok : ∀ (exp : List (String × CVal)) (cfg : Config),
    containsKey cfg "SCALES" = false →
    (exp.map Prod.fst).Nodup →
    (∀ kv ∈ exp, entryWF cfg kv) →
    allKeysKnown cfg exp = true →
    ∃ cfg', update_config cfg exp = .ok cfg' ∧
      (∀ k a, (k, CVal.atom a) ∈ exp → lookupKey cfg' k = some (.atom a)) ∧
      (∀ k d vk vv, (k, CVal.dict d) ∈ exp → (vk, vv) ∈ d →
        lookupNested cfg' k vk = some vv) ∧
      (∀ x, x ∉ exp.map Prod.fst → lookupKey cfg' x = lookupKey cfg x) := by
  intro exp
  induction exp with
  | nil =>
      intro cfg _ _ _ _
      exact ⟨cfg, rfl, by simp, by simp, fun _ _ => rfl⟩
  | cons kv rest ih =>
      obtain ⟨k, v⟩ := kv
      intro cfg hscales hnd hent hknown
      simp only [allKeysKnown, Bool.and_eq_true] at hknown
      have hck : containsKey cfg k = true := by
        have h1 := hknown.1
        simp only [entryKnown, Bool.and_eq_true] at h1
        exact h1.1
      rw [List.map_cons, List.nodup_cons] at hnd
      have hks : k ≠ "SCALES" := by
        intro he
        rw [he, hscales] at hck
        exact Bool.noConfusion hck
      have hrestne : ∀ kv2 ∈ rest, kv2.1 ≠ k := by
        intro kv2 h2 he
        exact hnd.1 (List.mem_map.mpr ⟨kv2, h2, he⟩)
      cases v with
      | atom a =>
          have hpres1 : ∀ x, x ≠ k →
              lookupKey (setKey cfg k (.atom a)) x = lookupKey cfg x :=
            fun x hx => lookupKey_setKey_other _ _ _ _ hx
          have hlu : ∀ kv2 ∈ rest,
              lookupKey (setKey cfg k (.atom a)) kv2.1 = lookupKey cfg kv2.1 :=
            fun kv2 h2 => hpres1 _ (hrestne kv2 h2)
          have hscales1 : containsKey (setKey cfg k (.atom a)) "SCALES" = false := by
            rw [containsKey_setKey]
            exact hscales
          have hent1 : ∀ kv2 ∈ rest, entryWF (setKey cfg k (.atom a)) kv2 :=
            fun kv2 h2 => (entryWF_congr _ _ kv2 (hlu kv2 h2)).mpr
              (hent kv2 (List.mem_cons_of_mem _ h2))
          have hknown1 : allKeysKnown (setKey cfg k (.atom a)) rest = true := by
            rw [allKeysKnown_congr rest _ cfg hlu]
            exact hknown.2
          obtain ⟨cfg', hok, hatoms, hdicts, hpres⟩ :=
            ih (setKey cfg k (.atom a)) hscales1 hnd.2 hent1 hknown1
          refine ⟨cfg', ?_, ?_, ?_, ?_⟩
          · rw [update_config_cons_atom cfg k a rest hck hks]
            exact hok
          · intro k2 a2 hmem
            rcases List.mem_cons.mp hmem with heq | htail
            · injection heq with h1 h2
              injection h2 with h2
              subst h1
              subst h2
              rw [hpres k2 hnd.1]
              exact lookupKey_setKey_self _ _ _ hck
            · exact hatoms _ _ htail
          · intro k2 d2 vk vv hmem hmem2
            rcases List.mem_cons.mp hmem with heq | htail
            · injection heq with h1 h2
              exact CVal.noConfusion h2
            · exact hdicts _ _ _ _ htail hmem2
          · intro x hx
            rw [List.map_cons, List.mem_cons] at hx
            push_neg at hx
            rw [hpres x hx.2, hpres1 x hx.1]
      | dict d =>
          have hwfh := hent (k, .dict d) (List.mem_cons_self _ _)
          simp only [entryWF] at hwfh
          obtain ⟨dd, hdd⟩ : ∃ dd, lookupKey cfg k = some (.dict dd) := by
            have hcont := hck
            rw [containsKey] at hcont
            cases hlk : lookupKey cfg k with
            | none => rw [hlk] at hcont; exact absurd hcont (by simp)
            | some val =>
                cases val with
                | atom a2 =>
                    have h2 := hwfh.2
                    rw [dictCompat, hlk] at h2
                    exact Bool.noConfusion h2
                | dict dd => exact ⟨dd, rfl⟩
          have hall : (d.all fun e => containsKey dd e.1) = true := by
            have h1 := hknown.1
            simp only [entryKnown, Bool.and_eq_true] at h1
            have h2 := h1.2
            rw [hdd] at h2
            exact h2
          obtain ⟨cfg₁, dd', hok1, hlk1, hmem1, hpres1, hnested1⟩ :=
            updateDictGo_main k d cfg dd hdd hall hwfh.1
          have hlu : ∀ kv2 ∈ rest, lookupKey cfg₁ kv2.1 = lookupKey cfg kv2.1 :=
            fun kv2 h2 => hpres1 _ (hrestne kv2 h2)
          have hscales1 : containsKey cfg₁ "SCALES" = false := by
            rw [containsKey, hpres1 "SCALES" (fun he => hks he.symm)]
            exact hscales
          have hent1 : ∀ kv2 ∈ rest, entryWF cfg₁ kv2 :=
            fun kv2 h2 => (entryWF_congr _ _ kv2 (hlu kv2 h2)).mpr
              (hent kv2 (List.mem_cons_of_mem _ h2))
          have hknown1 : allKeysKnown cfg₁ rest = true := by
            rw [allKeysKnown_congr rest _ cfg hlu]
            exact hknown.2
          obtain ⟨cfg', hok, hatoms, hdicts, hpres⟩ :=
            ih cfg₁ hscales1 hnd.2 hent1 hknown1
          refine ⟨cfg', ?_, ?_, ?_, ?_⟩
          · rw [update_config_cons_dict cfg k d rest hck, hok1]
            exact hok
          · intro k2 a2 hmem
            rcases List.mem_cons.mp hmem with heq | htail
            · injection heq with h1 h2
              exact CVal.noConfusion h2
            · exact hatoms _ _ htail
          · intro k2 d2 vk vv hmem hmem2
            rcases List.mem_cons.mp hmem with heq | htail
            · injection heq with h1 h2
              injection h2 with h2
              subst h1
              subst h2
              rw [lookupNested, hpres k2 hnd.1, hlk1]
              exact hmem1 _ _ hmem2
            · exact hdicts _ _ _ _ htail hmem2
          · intro x hx
            rw [List.map_cons, List.mem_cons] at hx
            push_neg at hx
            rw [hpres x hx.2, hpres1 x hx.1]

theorem update_config_err : ∀ (exp : List (String × CVal)) (cfg : Config),
    containsKey cfg "SCALES" = false →
    (exp.map Prod.fst).Nodup →
    (∀ kv ∈ exp, entryWF cfg kv) →
    allKeysKnown cfg exp = false →
    ∃ st, update_config cfg exp = .error st := by
  intro exp
  induction exp with
  | nil => intro cfg _ _ _ hknown; exact absurd hknown (by simp [allKeysKnown])
  | cons kv rest ih =>
      obtain ⟨k, v⟩ := kv
      intro cfg hscales hnd hent hknown
      rw [List.map_cons, List.nodup_cons] at hnd
      have hrestne : ∀ kv2 ∈ rest, kv2.1 ≠ k := by
        intro kv2 h2 he
        exact hnd.1 (List.mem_map.mpr ⟨kv2, h2, he⟩)
      by_cases hck : containsKey cfg k = true
      · have hks : k ≠ "SCALES" := by
          intro he
          rw [he, hscales] at hck
          exact Bool.noConfusion hck
        cases v with
        | atom a =>
            have hrest : allKeysKnown cfg rest = false := by
              simp only [allKeysKnown, entryKnown, hck, Bool.true_and,
                Bool.and_true] at hknown
              exact hknown
            have hpres1 : ∀ x, x ≠ k →
                lookupKey (setKey cfg k (.atom a)) x = lookupKey cfg x :=
              fun x hx => lookupKey_setKey_other _ _ _ _ hx
            have hlu : ∀ kv2 ∈ rest,
                lookupKey (setKey cfg k (.atom a)) kv2.1 = lookupKey cfg kv2.1 :=
              fun kv2 h2 => hpres1 _ (hrestne kv2 h2)
            have hscales1 : containsKey (setKey cfg k (.atom a)) "SCALES" = false := by
              rw [containsKey_setKey]
              exact hscales
            have hent1 : ∀ kv2 ∈ rest, entryWF (setKey cfg k (.atom a)) kv2 :=
              fun kv2 h2 => (entryWF_congr _ _ kv2 (hlu kv2 h2)).mpr
                (hent kv2 (List.mem_cons_of_mem _ h2))
            have hknown1 : allKeysKnown (setKey cfg k (.atom a)) rest = false := by
              rw [allKeysKnown_congr rest _ cfg hlu]
              exact hrest
            obtain ⟨st, hst⟩ := ih (setKey cfg k (.atom a)) hscales1 hnd.2 hent1 hknown1
            refine ⟨st, ?_⟩
            rw [update_config_cons_atom cfg k a rest hck hks]
            exact hst
        | dict d =>
            have hwfh := hent (k, .dict d) (List.mem_cons_self _ _)
            simp only [entryWF] at hwfh
            obtain ⟨dd, hdd⟩ : ∃ dd, lookupKey cfg k = some (.dict dd) := by
              have hcont := hck
              rw [containsKey] at hcont
              cases hlk : lookupKey cfg k with
              | none => rw [hlk] at hcont; exact absurd hcont (by simp)
              | some val =>
                  cases val with
                  | atom a2 =>
                      have h2 := hwfh.2
                      rw [dictCompat, hlk] at h2
                      exact Bool.noConfusion h2
                  | dict dd => exact ⟨dd, rfl⟩
            by_cases hall : (d.all fun e => containsKey dd e.1) = true
            · have hrest : allKeysKnown cfg rest = false := by
                simp only [allKeysKnown, entryKnown, hck, Bool.true_and] at hknown
                rw [hdd] at hknown
                have hknown2 : ((d.all fun e => containsKey dd e.1) &&
                    allKeysKnown cfg rest) = false := hknown
                rw [hall, Bool.true_and] at hknown2
                exact hknown2
              obtain ⟨cfg₁, dd', hok1, hlk1, hmem1, hpres1, hnested1⟩ :=
                updateDictGo_main k d cfg dd hdd hall hwfh.1
              have hlu : ∀ kv2 ∈ rest,
                  lookupKey cfg₁ kv2.1 = lookupKey cfg kv2.1 :=
                fun kv2 h2 => hpres1 _ (hrestne kv2 h2)
              have hscales1 : containsKey cfg₁ "SCALES" = false := by
                rw [containsKey, hpres1 "SCALES" (fun he => hks he.symm)]
                exact hscales
              have hent1 : ∀ kv2 ∈ rest, entryWF cfg₁ kv2 :=
                fun kv2 h2 => (entryWF_congr _ _ kv2 (hlu kv2 h2)).mpr
                  (hent kv2 (List.mem_cons_of_mem _ h2))
              have hknown1 : allKeysKnown cfg₁ rest = false := by
                rw [allKeysKnown_congr rest _ cfg hlu]
                exact hrest
              obtain ⟨st, hst⟩ := ih cfg₁ hscales1 hnd.2 hent1 hknown1
              refine ⟨st, ?_⟩
              rw [update_config_cons_dict cfg k d rest hck, hok1]
              exact hst
            · rw [Bool.not_eq_true] at hall
              obtain ⟨st, hst⟩ := updateDictGo_fail k d cfg dd hdd hall
              refine ⟨st, ?_⟩
              rw [update_config_cons_dict cfg k d rest hck, hst]
      · rw [Bool.not_eq_true] at hck
        exact ⟨cfg, update_config_cons_unknown cfg k v rest hck⟩

end ConfigM

/-- C5.  Configuration driven by structured experiment files: for every
well-formed experiment file (distinct keys, as in any YAML mapping, and
dict-valued entries matching dict-valued defaults), `update_config` —
when every top-level and nested key exists in the default configuration —
succeeds and overwrites the default entry of every top-level key and, for
dict-valued entries, of every nested key; and when some top-level or
nested key does not exist in the defaults it raises `ValueError`. -/
theorem C5_update_config_overwrite_or_raise (exp : List (String × ConfigM.CVal))
    (hwf : ConfigM.wellFormedExp ConfigM.defaultConfig exp) :
    (ConfigM.allKeysKnown ConfigM.defaultConfig exp = true →
      ∃ cfg', ConfigM.update_config ConfigM.defaultConfig exp = .ok cfg' ∧
        (∀ k a, (k, ConfigM.CVal.atom a) ∈ exp →
          ConfigM.lookupKey cfg' k = some (.atom a)) ∧
        (∀ k d vk vv, (k, ConfigM.CVal.dict d) ∈ exp → (vk, vv) ∈ d →
          ConfigM.lookupNested cfg' k vk = some vv)) ∧
    (ConfigM.allKeysKnown ConfigM.defaultConfig exp = false →
      ∃ st, ConfigM.update_config ConfigM.defaultConfig exp = .error st) := by
  have hscales : ConfigM.containsKey ConfigM.defaultConfig "SCALES" = false := by
    decide
  constructor
  · intro hknown
    obtain ⟨cfg', hok, ha, hd, _⟩ :=
      ConfigM.update_config_ok exp ConfigM.defaultConfig hscales hwf.1 hwf.2 hknown
    exact ⟨cfg', hok, ha, hd⟩
  · intro hunknown
    exact ConfigM.update_config_err exp ConfigM.defaultConfig hscales hwf.1
      hwf.2 hunknown

/-- Witness for C5 at a concrete experiment file overwriting `GPUS` and
`TRAIN.LR`: all keys exist in the defaults, so the update succeeds and
the overwrites are visible. -/
theorem C5_update_config_overwrite_or_raise_witness :
    ∃ cfg', ConfigM.update_config ConfigM.defaultConfig
        [("GPUS", ConfigM.CVal.atom "0,1"),
         ("TRAIN", ConfigM.CVal.dict [("LR", "0.01")])] = .ok cfg' ∧
      (∀ k a, (k, ConfigM.CVal.atom a) ∈
          [("GPUS", ConfigM.CVal.atom "0,1"),
           ("TRAIN", ConfigM.CVal.dict [("LR", "0.01")])] →
        ConfigM.lookupKey cfg' k = some (.atom a)) ∧
      (∀ k d vk vv, (k, ConfigM.CVal.dict d) ∈
          [("GPUS", ConfigM.CVal.atom "0,1"),
           ("TRAIN", ConfigM.CVal.dict [("LR", "0.01")])] → (vk, vv) ∈ d →
        ConfigM.lookupNested cfg' k vk = some vv) :=
  (C5_update_config_overwrite_or_raise
    [("GPUS", ConfigM.CVal.atom "0,1"),
     ("TRAIN", ConfigM.CVal.dict [("LR", "0.01")])]
    ⟨by decide, by
      intro kv h
      simp only [List.mem_cons, List.not_mem_nil, or_false] at h
      rcases h with rfl | rfl
      · trivial
      · exact ⟨by decide, by decide⟩⟩).1 (by decide)

/-- C7.  Non-atomic configuration update: on an experiment file whose
first key (`WORKERS`) exists in the defaults and whose second key
(`NOT_A_KEY`) does not, `update_config` raises `ValueError` with the
global config already mutated by the first assignment — `WORKERS` holds
the new value in the error-time state, which therefore differs from the
untouched default configuration. -/
theorem C7_update_config_not_atomic :
    ConfigM.update_config ConfigM.defaultConfig
        [("WORKERS", ConfigM.CVal.atom "8"),
         ("NOT_A_KEY", ConfigM.CVal.atom "1")] =
      .error (ConfigM.setKey ConfigM.defaultConfig "WORKERS"
        (ConfigM.CVal.atom "8")) ∧
    ConfigM.setKey ConfigM.defaultConfig "WORKERS" (ConfigM.CVal.atom "8") ≠
      ConfigM.defaultConfig ∧
    ConfigM.lookupKey (ConfigM.setKey ConfigM.defaultConfig "WORKERS"
      (ConfigM.CVal.atom "8")) "WORKERS" = some (.atom "8") ∧
    ConfigM.lookupKey ConfigM.defaultConfig "WORKERS" = some (.atom "4") := by
  exact ⟨rfl, by decide, rfl, rfl⟩

/-- Witness for C4 at a concrete instance: the two-epoch
`witnessDriver` from epoch 0 to 2. -/
theorem C4_checkpointing_witness :
    TrainM.mainTrace TrainM.witnessDriver 0 2 =
      some (TrainM.specLoop TrainM.witnessDriver 0 0 2 ++
        [TrainM.TrainEvent.save "final_state.pth.tar"
          (TrainM.witnessDriver.saveDict 1)]) :=
  (C4_checkpointing TrainM.witnessDriver 0 2 (by decide)).1

end TDPose
